import Mathlib

/-!
Graph editing model of `frontend/src/ui/App.jsx`.

A shallow embedding of the React component `App`: its three pieces of state
(`nodes`, `edges`, `selected`) and the handlers that replace them.

JavaScript numbers are binary64 values, represented here by the rationals
they denote.  Where rounding matters (the snap of `onDragMove`, line 36) every
arithmetic operation is followed by `toDouble`, round-to-nearest with ties to
even; `snap` is the same expression in exact arithmetic and is proved equal to
the binary64 result on integers of magnitude at most `2^52` and on every tie
below `2^54`.  Strings are Lean `String`s; `null` / `undefined` are `none`.

User events reach a handler only through a control that is mounted: `step`
dispatches an event to the handler of the control it names, and `Reachable`
collects the states the component can be in.
-/

namespace App

/-! ## Constants (lines 4-6) -/

/-- Grid pitch `GRID`. -/
def GRID : ℚ := 20

/-- Gate box width `GATE_W`. -/
def GATE_W : ℚ := 100

/-- Gate box height `GATE_H`. -/
def GATE_H : ℚ := 50

/-! ## Data model -/

/-- A node object `{ id, type, x, y }`. -/
structure Node where
  id : String
  type : String
  x : ℚ
  y : ℚ
  deriving DecidableEq, Repr

/-- An edge object `{ from, to }`. -/
structure Edge where
  «from» : String
  «to» : String
  deriving DecidableEq, Repr

/-- The component state: `nodes`, `edges` and `selected` (`null` is `none`). -/
structure State where
  nodes : List Node
  edges : List Edge
  selected : Option String
  deriving DecidableEq, Repr

/-- The initial state of the three `useState` hooks (lines 21-32). -/
def initial : State :=
  { nodes := [⟨"in1", "INPUT", 40, 40⟩, ⟨"in2", "INPUT", 40, 120⟩,
              ⟨"and1", "AND", 260, 80⟩, ⟨"out1", "OUTPUT", 460, 80⟩]
    edges := [⟨"in1", "and1"⟩, ⟨"in2", "and1"⟩, ⟨"and1", "out1"⟩]
    selected := none }

/-! ## JavaScript primitives -/

/-- `Math.round(q)`: the integer nearest to `q`, ties going towards `+∞`,
that is `⌊q + 1/2⌋`. -/
def mathRound (q : ℚ) : ℤ := ⌊q + 1 / 2⌋

/-- JavaScript truthiness of a value that is `null` or a string: `null` and
the empty string are falsy, every other string is truthy. -/
def truthy : Option String → Bool
  | none => false
  | some s => s != ""

/-- ASCII model of `String.prototype.toLowerCase`: it agrees with JavaScript
on ASCII strings, in particular on the gate types the toolbox passes. -/
def toLowerCase (s : String) : String :=
  String.mk (s.data.map Char.toLower)

/-- Rounding to the nearest integer, ties to the even neighbour. -/
def roundHalfEven (q : ℚ) : ℤ :=
  if q - ⌊q⌋ < 1 / 2 then ⌊q⌋
  else if 1 / 2 < q - ⌊q⌋ then ⌊q⌋ + 1
  else if ⌊q⌋ % 2 = 0 then ⌊q⌋ else ⌊q⌋ + 1

/-- Binary exponent of a non-zero rational: the `e` with
`2^e ≤ |q| < 2^(e+1)`. -/
def binExp (q : ℚ) : ℤ := Int.log 2 |q|

/-- Spacing of the binary64 numbers around `q`: `2^(e-52)` with `e` the
binary exponent, and the subnormal spacing `2^(-1074)` below `2^(-1022)`. -/
def ulp (q : ℚ) : ℚ := (2 : ℚ) ^ (max (binExp q) (-1022) - 52)

/-- The binary64 number nearest to `q`, ties to the even significand: the
rounding that follows every JavaScript arithmetic operation.  Overflow to
`Infinity` is not represented, so the result is the JavaScript one for
`|q| < 2^1024`. -/
def toDouble (q : ℚ) : ℚ := (roundHalfEven (q / ulp q) : ℚ) * ulp q

/-! ## Handlers -/

/-- The value of `Math.round(v/GRID)*GRID` (line 36) in exact arithmetic.  The
handler computes it in binary64, see `snapDouble`; the two agree on every
integer of magnitude at most `2^52` and on every tie of magnitude below
`2^54`. -/
def snap (v : ℚ) : ℚ := (mathRound (v / GRID) : ℚ) * GRID

/-- The expression `Math.round(v/GRID)*GRID` of line 36 as JavaScript evaluates
it on a binary64 `v`: the quotient and the product are rounded to binary64,
`Math.round` is exact. -/
def snapDouble (v : ℚ) : ℚ :=
  toDouble ((mathRound (toDouble (v / GRID)) : ℚ) * GRID)

/-- Handler `onDragMove(id, x, y)` (lines 35-37): `nodes.map` replacing the
position of every node whose id is `id`; `setEdges` and `setSelected` are not
called. -/
def onDragMove (st : State) (id : String) (x y : ℚ) : State :=
  { st with nodes := st.nodes.map fun n =>
      if n.id = id then { n with x := snapDouble x, y := snapDouble y } else n }

/-- Handler `addGate(type)` (lines 39-42).  The argument `suffix` is the outcome
of `Math.random().toString(36).slice(2,9)`, the only non-deterministic part;
the new node is appended at position `(120, 120)`. -/
def addGate (st : State) (type suffix : String) : State :=
  let id := toLowerCase type ++ "_" ++ suffix
  { st with nodes := st.nodes ++ [{ id := id, type := type, x := 120, y := 120 }] }

/-- A sequence of `addGate` calls, each given as `(type, suffix)`, applied in
order. -/
def addGates (st : State) (calls : List (String × String)) : State :=
  calls.foldl (fun s c => addGate s c.1 c.2) st

/-- The id that the call `addGate(type)` builds when the random expression
yields `suffix` (line 40). -/
def newId (c : String × String) : String :=
  toLowerCase c.1 ++ "_" ++ c.2

/-- Handler `connectSelected(toId)` (lines 44-48). -/
def connectSelected (st : State) (toId : String) : State :=
  match st.selected with
  | none => { st with selected := none }
  | some s =>
    if !truthy (some s) || s == toId then { st with selected := none }
    else { st with edges := st.edges ++ [{ «from» := s, «to» := toId }], selected := none }

/-- The node button `onClick` (line 69): `setSelected(n.id)`. -/
def selectSource (st : State) (id : String) : State :=
  { st with selected := some id }

/-- The Deselect button `onClick` (line 61): `setSelected(null)`. -/
def clearSelection (st : State) : State :=
  { st with selected := none }

/-- The Del button `onClick` for the node with id `id` (lines 70-73): both
lists are filtered, `selected` is not touched. -/
def deleteNode (st : State) (id : String) : State :=
  { st with
    nodes := st.nodes.filter fun x => x.id != id
    edges := st.edges.filter fun e => e.«from» != id && e.«to» != id }

/-- The Connect button `onClick` (line 80).  `answer` is what `prompt` returns
(`null` when the dialog is cancelled); it is only consulted when `selected` is
truthy.  The Boolean is `true` exactly when `alert('Select source first')` is
called. -/
def connectClick (st : State) (answer : Option String) : State × Bool :=
  if truthy st.selected then
    match answer with
    | some to_ => if truthy (some to_) then (connectSelected st to_, false) else (st, false)
    | none => (st, false)
  else (st, true)

/-- The callback of `edges.map` in the render (lines 96-106): `none` is the
`null` return, `some pts` is the flat `points` array `[x0,y0, x1,y1, x2,y2,
x3,y3]` handed to the `Line` element. -/
def routeEdge (nodes : List Node) (e : Edge) : Option (List ℚ) :=
  let from_ := nodes.find? fun n => n.id == e.«from»
  let to_ := nodes.find? fun n => n.id == e.«to»
  match from_, to_ with
  | some f, some t =>
    let sx := f.x + 100
    let sy := f.y + 25
    let dx := t.x
    let dy := t.y + 25
    some [sx, sy, (sx + dx) / 2, sy, (sx + dx) / 2, dy, dx, dy]
  | _, _ => none

/-! ## User events -/

/-- The gate types of the five toolbox buttons (lines 54-58). -/
def gateTypes : List String := ["INPUT", "OUTPUT", "AND", "OR", "NOT"]

/-- The events the rendered page can deliver: a drag of the gate shape of a
node (lines 10-11, 107), a toolbox button (lines 54-58, with the outcome of
the random expression), the select button of a node (line 69), Deselect
(line 61), the Del button of a node (lines 70-73) and the Connect button with
the answer of `prompt` (line 80).  Drag coordinates range over all rationals,
which covers every binary64 value.  A click on a gate shape (line 107) runs
an empty handler and is left out. -/
inductive Event where
  | drag (id : String) (x y : ℚ)
  | add (type suffix : String)
  | select (id : String)
  | deselect
  | del (id : String)
  | connect (answer : Option String)

/-- The node whose controls carry the id `id`.  The gate shapes (line 107) and
the select and Del buttons (lines 67-75) are produced by `nodes.map`, so a
control exists only for a node of the current list. -/
def control (st : State) (id : String) : Option Node :=
  st.nodes.find? fun n => n.id == id

/-- One event: the handler of the control the event names is run on the
current state with that node's id; an event naming a control that is not
mounted is not delivered and the state stays as it is. -/
def step (st : State) : Event → State
  | .drag id x y =>
    match control st id with
    | some n => onDragMove st n.id x y
    | none => st
  | .add type suffix => if type ∈ gateTypes then addGate st type suffix else st
  | .select id =>
    match control st id with
    | some n => selectSource st n.id
    | none => st
  | .deselect => clearSelection st
  | .del id =>
    match control st id with
    | some n => deleteNode st n.id
    | none => st
  | .connect answer => (connectClick st answer).1

/-- The states of the component: the initial state of the hooks and whatever a
sequence of events makes of it. -/
inductive Reachable : State → Prop where
  | init : Reachable initial
  | step {st : State} (ev : Event) : Reachable st → Reachable (step st ev)

/-! ## Specification-side notions -/

/-- Node `f` is the first element of `nodes` whose id is `id`. -/
def FirstWithId (nodes : List Node) (id : String) (f : Node) : Prop :=
  ∃ pre post, nodes = pre ++ f :: post ∧ f.id = id ∧ ∀ n ∈ pre, n.id ≠ id

/-- Rounding to the nearest integer, ties away from zero. -/
def roundHalfAway (q : ℚ) : ℤ :=
  if 0 ≤ q then ⌊q + 1 / 2⌋ else ⌈q - 1 / 2⌉

/-- The snap that the round-half-to-even convention would give. -/
def snapHalfEven (v : ℚ) : ℚ := (roundHalfEven (v / GRID) : ℚ) * GRID

/-- The snap that the round-half-away-from-zero convention would give. -/
def snapHalfAway (v : ℚ) : ℚ := (roundHalfAway (v / GRID) : ℚ) * GRID

/-! ## Concrete states used as test inputs -/

/-- The initial circuit after selecting `in1` and connecting it to the unknown
id `zzz`: a fourth, dangling edge `in1 → zzz` is present. -/
def danglingState : State :=
  connectSelected (selectSource initial "in1") "zzz"

/-- Two nodes `A`, `B` and no edge. -/
def twoNodes : State :=
  { nodes := [⟨"A", "INPUT", 40, 40⟩, ⟨"B", "OUTPUT", 260, 80⟩], edges := [], selected := none }

/-! ## Deleting a node -/

/-- C1 (cascade correctness of `deleteNode`): after the Del handler for `id`,
the edge list is the sub-list, in the original order, of the edges whose `from`
and `to` both differ from `id`; no remaining edge has `id` as an endpoint and
no remaining node has that id. -/
theorem deleteNode_cascade (st : State) (id : String) :
    (deleteNode st id).edges
        = st.edges.filter (fun e => decide (e.«from» ≠ id ∧ e.«to» ≠ id)) ∧
      (deleteNode st id).edges.Sublist st.edges ∧
      (∀ e, e ∈ (deleteNode st id).edges ↔ e ∈ st.edges ∧ e.«from» ≠ id ∧ e.«to» ≠ id) ∧
      (∀ e ∈ (deleteNode st id).edges, e.«from» ≠ id ∧ e.«to» ≠ id) ∧
      (∀ n ∈ (deleteNode st id).nodes, n.id ≠ id) := by
  have hf : (deleteNode st id).edges
      = st.edges.filter (fun e => decide (e.«from» ≠ id ∧ e.«to» ≠ id)) := by
    simp only [deleteNode]
    congr 1
    funext e
    by_cases h1 : e.«from» = id <;> by_cases h2 : e.«to» = id <;> simp [h1, h2]
  have hm : ∀ e, e ∈ (deleteNode st id).edges ↔
      e ∈ st.edges ∧ e.«from» ≠ id ∧ e.«to» ≠ id := by
    intro e
    rw [hf]
    simp [List.mem_filter]
  refine ⟨hf, ?_, hm, fun e he => ((hm e).1 he).2, ?_⟩
  · rw [hf]
    exact List.filter_sublist _
  · intro n hn
    simp only [deleteNode, List.mem_filter] at hn
    simpa using hn.2

/-- C1, at the initial circuit: deleting `and1` removes all three edges and
the node. -/
theorem deleteNode_cascade_witness :
    (deleteNode initial "and1").edges = [] ∧
      (∀ n ∈ (deleteNode initial "and1").nodes, n.id ≠ "and1") :=
  ⟨(deleteNode_cascade initial "and1").1.trans (by decide),
    (deleteNode_cascade initial "and1").2.2.2.2⟩

/-! ## Reachable states and mounted controls -/

/-- An id built by `addGate` is never the empty string. -/
theorem newId_ne_empty (type suffix : String) :
    toLowerCase type ++ "_" ++ suffix ≠ "" := by
  intro h
  have hl : (toLowerCase type ++ "_" ++ suffix).length = 0 := by rw [h]; rfl
  simp only [String.length_append] at hl
  have h1 : "_".length = 1 := by decide
  omega

/-- A mounted control belongs to a node of the list with that id. -/
theorem control_some {st : State} {id : String} {n : Node} (h : control st id = some n) :
    n ∈ st.nodes ∧ n.id = id := by
  unfold control at h
  exact ⟨List.mem_of_find?_eq_some h, by simpa using List.find?_some h⟩

/-- No control is mounted for an id that no node carries. -/
theorem control_none {st : State} {id : String} (h : ∀ n ∈ st.nodes, n.id ≠ id) :
    control st id = none := by
  unfold control
  rw [List.find?_eq_none]
  intro n hn
  simpa using h n hn

/-- In every reachable state the node ids are non-empty and `selected` is not
the empty string: ids are the four initial literals or contain `_`, and
`setSelected` only receives `null` or the id of a node. -/
theorem reachable_nonempty {st : State} (hr : Reachable st) :
    (∀ n ∈ st.nodes, n.id ≠ "") ∧ st.selected ≠ some "" := by
  induction hr with
  | init => decide
  | @step st ev _ ih =>
    obtain ⟨hn, hs⟩ := ih
    cases ev with
    | drag id x y =>
      simp only [step]
      cases hc : control st id with
      | none => exact ⟨hn, hs⟩
      | some m =>
        refine ⟨?_, hs⟩
        intro n hmem
        simp only [onDragMove, List.mem_map] at hmem
        obtain ⟨a, ha, rfl⟩ := hmem
        by_cases h : a.id = m.id
        · rw [if_pos h]; exact hn a ha
        · rw [if_neg h]; exact hn a ha
    | add type suffix =>
      simp only [step]
      by_cases ht : type ∈ gateTypes
      · rw [if_pos ht]
        refine ⟨?_, hs⟩
        intro n hmem
        simp only [addGate, List.mem_append, List.mem_singleton] at hmem
        rcases hmem with hmem | rfl
        · exact hn n hmem
        · exact newId_ne_empty type suffix
      · rw [if_neg ht]; exact ⟨hn, hs⟩
    | select id =>
      simp only [step]
      cases hc : control st id with
      | none => exact ⟨hn, hs⟩
      | some m =>
        refine ⟨hn, ?_⟩
        simp only [selectSource]
        intro h
        exact hn m (control_some hc).1 (Option.some.inj h)
    | deselect => exact ⟨hn, by simp [step, clearSelection]⟩
    | del id =>
      simp only [step]
      cases hc : control st id with
      | none => exact ⟨hn, hs⟩
      | some m =>
        refine ⟨?_, hs⟩
        intro n hmem
        simp only [deleteNode, List.mem_filter] at hmem
        exact hn n hmem.1
    | connect answer =>
      obtain ⟨nodes, edges, sel⟩ := st
      simp only [step, connectClick]
      split_ifs with h1
      · cases answer with
        | none => exact ⟨hn, hs⟩
        | some t =>
          by_cases h2 : truthy (some t) = true
          · simp only [h2, if_true]
            cases sel with
            | none => exact ⟨hn, by simp [connectSelected]⟩
            | some s =>
              simp only [connectSelected]
              split_ifs <;> exact ⟨hn, by simp⟩
          · simp only [h2]
            exact ⟨hn, hs⟩
      · exact ⟨hn, hs⟩

/-! ## Ids that no node carries -/

/-- C4 (no-op tolerance): for an id that no node carries, whatever the edge
list holds, `onDragMove` returns the state unchanged, and a drag or Del event
naming that id finds no mounted control and leaves the state unchanged; the
body of the Del handler, were it run with such an id, would keep the node list
and keep the edge list exactly when no edge mentions the id. -/
theorem absent_id_noop (st : State) (id : String) (x y : ℚ)
    (h : ∀ n ∈ st.nodes, n.id ≠ id) :
    onDragMove st id x y = st ∧
      step st (.drag id x y) = st ∧
      step st (.del id) = st ∧
      (deleteNode st id).nodes = st.nodes ∧
      ((deleteNode st id).edges = st.edges ↔
        ∀ e ∈ st.edges, e.«from» ≠ id ∧ e.«to» ≠ id) := by
  have hc := control_none h
  have hn : (deleteNode st id).nodes = st.nodes := by
    simp only [deleteNode]
    rw [List.filter_eq_self]
    intro n hn
    simpa using h n hn
  have he : (deleteNode st id).edges = st.edges ↔
      ∀ e ∈ st.edges, e.«from» ≠ id ∧ e.«to» ≠ id := by
    simp only [deleteNode]
    rw [List.filter_eq_self]
    constructor
    · intro H e hmem
      simpa using H e hmem
    · intro H e hmem
      simpa using H e hmem
  refine ⟨?_, by simp only [step, hc], by simp only [step, hc], hn, he⟩
  have hmap : (st.nodes.map fun n =>
      if n.id = id then { n with x := snapDouble x, y := snapDouble y } else n) = st.nodes := by
    conv_rhs => rw [← List.map_id st.nodes]
    apply List.map_congr_left
    intro n hmem
    simp [h n hmem]
  cases st
  simp only [onDragMove] at hmap ⊢
  rw [hmap]

/-- C4, at the reachable state with the dangling edge `in1 → zzz`: no node has
id `zzz`; a drag or a Del event for `zzz` changes nothing. -/
theorem absent_id_noop_witness :
    (∀ n ∈ danglingState.nodes, n.id ≠ "zzz") ∧
      onDragMove danglingState "zzz" 47 (-13) = danglingState ∧
      step danglingState (.drag "zzz" 47 (-13)) = danglingState ∧
      step danglingState (.del "zzz") = danglingState :=
  ⟨by decide, (absent_id_noop danglingState "zzz" 47 (-13) (by decide)).1,
    (absent_id_noop danglingState "zzz" 47 (-13) (by decide)).2.1,
    (absent_id_noop danglingState "zzz" 47 (-13) (by decide)).2.2.1⟩

/-! ## Moving a node: frame -/

/-- C10 (frame of `moveNode`): `onDragMove` leaves the edge list and the
selection unchanged; the node list keeps its length and order, position by
position the id and the type are kept, and a node whose id differs from `id`
is unchanged. -/
theorem onDragMove_frame (st : State) (id : String) (x y : ℚ) :
    (onDragMove st id x y).edges = st.edges ∧
      (onDragMove st id x y).selected = st.selected ∧
      (onDragMove st id x y).nodes.length = st.nodes.length ∧
      List.Forall₂ (fun n n' => n'.id = n.id ∧ n'.type = n.type ∧ (n.id ≠ id → n' = n))
        st.nodes (onDragMove st id x y).nodes := by
  refine ⟨rfl, rfl, by simp [onDragMove], ?_⟩
  simp only [onDragMove]
  rw [List.forall₂_map_right_iff, List.forall₂_same]
  intro n _
  by_cases hn : n.id = id <;> simp [hn]

/-- C10, at the initial circuit: dragging `and1` keeps edges, selection, ids
and types. -/
theorem onDragMove_frame_witness :
    (onDragMove initial "and1" 47 (-13)).edges = initial.edges ∧
      (onDragMove initial "and1" 47 (-13)).selected = none ∧
      (onDragMove initial "and1" 47 (-13)).nodes.length = 4 :=
  ⟨(onDragMove_frame initial "and1" 47 (-13)).1,
    (onDragMove_frame initial "and1" 47 (-13)).2.1,
    (onDragMove_frame initial "and1" 47 (-13)).2.2.1⟩

/-! ## The selection / connection state machine -/

/-- C6 (self-loop rejection): selecting `a` and then connecting to `a` leaves
the edge list and the node list as they were and ends with no selection. -/
theorem selfLoop_rejected (st : State) (a : String) :
    (connectSelected (selectSource st a) a).edges = st.edges ∧
      (connectSelected (selectSource st a) a).nodes = st.nodes ∧
      (connectSelected (selectSource st a) a).selected = none := by
  simp [connectSelected, selectSource]

/-- C5 (connection happy path): in every reachable state, and in any state
at all whose selection is a non-empty string, when the pending selection is
`s` and the target `t` differs from `s`, `connectSelected` appends the single
edge `s → t` at the end of the edge list, keeps the node list and clears the
selection; neither id is looked up and an equal edge already present does not
matter. -/
theorem connectSelected_appends (st : State) (s t : String)
    (hs : st.selected = some s) (ht : t ≠ s) (hr : Reachable st ∨ s ≠ "") :
    connectSelected st t
      = { nodes := st.nodes, edges := st.edges ++ [⟨s, t⟩], selected := none } := by
  have hne : s ≠ "" := by
    rcases hr with hr | hne
    · intro h
      exact (reachable_nonempty hr).2 (by rw [hs, h])
    · exact hne
  have ht' : ¬ s = t := fun h => ht h.symm
  simp [connectSelected, hs, truthy, hne, ht']

/-- C5, the scenario of the specification (nodes `A`, `B`, no edge; select
`A`, connect `B`) and the reachable state after selecting `in1` in the
initial circuit, connected to `out1`. -/
theorem connectSelected_appends_witness :
    (selectSource twoNodes "A").selected = some "A" ∧ "B" ≠ "A" ∧
      connectSelected (selectSource twoNodes "A") "B"
        = { nodes := twoNodes.nodes, edges := [⟨"A", "B"⟩], selected := none } ∧
      Reachable (step initial (.select "in1")) ∧
      (step initial (.select "in1")).selected = some "in1" ∧
      connectSelected (step initial (.select "in1")) "out1"
        = { nodes := initial.nodes, edges := initial.edges ++ [⟨"in1", "out1"⟩],
            selected := none } :=
  ⟨rfl, by decide,
    connectSelected_appends (selectSource twoNodes "A") "A" "B" rfl (by decide)
      (Or.inr (by decide)),
    Reachable.step _ Reachable.init, by decide,
    connectSelected_appends (step initial (.select "in1")) "in1" "out1" (by decide)
      (by decide) (Or.inl (Reachable.step _ Reachable.init))⟩

/-- C7 (NoSourceSelected): with `selected` equal to `null` the Connect button
raises the alert and returns the state unchanged, whatever the prompt would
answer, and `connectSelected` itself changes nothing either; conversely, in
every reachable state the alert is raised only when `selected` is `null`, and
whenever it is raised the state is unchanged. -/
theorem connectClick_noSource (st : State) (answer : Option String) :
    (st.selected = none → connectClick st answer = (st, true)) ∧
      (st.selected = none → ∀ t, connectSelected st t = st) ∧
      (Reachable st → ((connectClick st answer).2 = true ↔ st.selected = none)) ∧
      ((connectClick st answer).2 = true → (connectClick st answer).1 = st) := by
  refine ⟨?_, ?_, ?_, ?_⟩
  · intro h
    simp [connectClick, truthy, h]
  · intro h t
    obtain ⟨nodes, edges, sel⟩ := st
    simp only at h
    subst h
    simp [connectSelected]
  · intro hr
    have hne := (reachable_nonempty hr).2
    obtain ⟨nodes, edges, sel⟩ := st
    cases sel with
    | none => simp [connectClick, truthy]
    | some s =>
      have hs : s ≠ "" := fun h => hne (by simp [h])
      cases answer with
      | none => simp [connectClick, truthy, hs]
      | some t => by_cases ht : t = "" <;> simp [connectClick, truthy, hs, ht]
  · obtain ⟨nodes, edges, sel⟩ := st
    cases sel with
    | none => simp [connectClick, truthy]
    | some s =>
      by_cases hs : s = ""
      · simp [connectClick, truthy, hs]
      · cases answer with
        | none => simp [connectClick, truthy, hs]
        | some t => by_cases ht : t = "" <;> simp [connectClick, truthy, hs, ht]

/-- C7, at the initial circuit, where nothing is selected, and at the
reachable state after selecting `in1`, where no alert is raised. -/
theorem connectClick_noSource_witness :
    initial.selected = none ∧
      connectClick initial (some "and1") = (initial, true) ∧
      connectSelected initial "and1" = initial ∧
      Reachable (step initial (.select "in1")) ∧
      ((connectClick (step initial (.select "in1")) (some "and1")).2 = true ↔
        (step initial (.select "in1")).selected = none) :=
  ⟨rfl, (connectClick_noSource initial (some "and1")).1 rfl,
    (connectClick_noSource initial (some "and1")).2.1 rfl "and1",
    Reachable.step _ Reachable.init,
    (connectClick_noSource (step initial (.select "in1")) (some "and1")).2.2.1
      (Reachable.step _ Reachable.init)⟩

/-! ## Binary64 rounding -/

/-- Rounding half-to-even moves a number by at most one half. -/
theorem roundHalfEven_near (x : ℚ) : |(roundHalfEven x : ℚ) - x| ≤ 1 / 2 := by
  have h1 : ((⌊x⌋ : ℤ) : ℚ) ≤ x := Int.floor_le x
  have h2 : x < ((⌊x⌋ : ℤ) : ℚ) + 1 := Int.lt_floor_add_one x
  unfold roundHalfEven
  rw [abs_le]
  split_ifs with a b c
  · constructor <;> linarith
  · push_cast; constructor <;> linarith
  · constructor <;> linarith
  · push_cast; constructor <;> linarith

/-- Rounding half-to-even fixes the integers. -/
theorem roundHalfEven_intCast (n : ℤ) : roundHalfEven (n : ℚ) = n := by
  unfold roundHalfEven
  rw [Int.floor_intCast]
  simp

/-- The spacing is positive. -/
theorem ulp_pos (q : ℚ) : 0 < ulp q := zpow_pos (by norm_num) _

/-- The binary exponent is `e` when `2^e ≤ |q| < 2^(e+1)`. -/
theorem binExp_eq {q : ℚ} {e : ℤ} (h1 : (2 : ℚ) ^ e ≤ |q|) (h2 : |q| < (2 : ℚ) ^ (e + 1)) :
    binExp q = e := by
  have hpos : 0 < |q| := lt_of_lt_of_le (zpow_pos (by norm_num) e) h1
  have a : e ≤ Int.log 2 |q| :=
    (Int.zpow_le_iff_le_log (by norm_num) hpos).1 (by exact_mod_cast h1)
  have b : Int.log 2 |q| < e + 1 :=
    (Int.lt_zpow_iff_log_lt (by norm_num) hpos).1 (by exact_mod_cast h2)
  unfold binExp
  omega

/-- The binary exponent is at most `e` below `2^(e+1)`. -/
theorem binExp_le {q : ℚ} {e : ℤ} (he : 0 ≤ e) (h : |q| < (2 : ℚ) ^ (e + 1)) :
    binExp q ≤ e := by
  unfold binExp
  rcases eq_or_lt_of_le (abs_nonneg q) with h0 | hpos
  · rw [← h0, Int.log_zero_right]
    exact he
  · have b : Int.log 2 |q| < e + 1 :=
      (Int.lt_zpow_iff_log_lt (by norm_num) hpos).1 (by exact_mod_cast h)
    omega

/-- The spacing is at most `2^(e-52)` below `2^(e+1)`. -/
theorem ulp_le {q : ℚ} {e : ℤ} (he : 0 ≤ e) (h : |q| < (2 : ℚ) ^ (e + 1)) :
    ulp q ≤ (2 : ℚ) ^ (e - 52) := by
  have hb := binExp_le he h
  unfold ulp
  apply zpow_le_zpow_right₀ (by norm_num)
  have : max (binExp q) (-1022) ≤ e := max_le hb (by omega)
  omega

/-- Rounding to binary64 moves a number by at most half the spacing. -/
theorem toDouble_near (q : ℚ) : |toDouble q - q| ≤ ulp q / 2 := by
  have hu := ulp_pos q
  have h := roundHalfEven_near (q / ulp q)
  have e : toDouble q - q = ((roundHalfEven (q / ulp q) : ℚ) - q / ulp q) * ulp q := by
    unfold toDouble
    field_simp
  rw [e, abs_mul, abs_of_pos hu]
  calc |(roundHalfEven (q / ulp q) : ℚ) - q / ulp q| * ulp q ≤ 1 / 2 * ulp q :=
        mul_le_mul_of_nonneg_right h hu.le
    _ = ulp q / 2 := by ring

/-- An integer multiple of the spacing is a binary64 number. -/
theorem toDouble_exact {q : ℚ} {n : ℤ} (h : q = n * ulp q) : toDouble q = q := by
  have hu := ulp_pos q
  have hq : q / ulp q = (n : ℚ) := by
    rw [div_eq_iff hu.ne']
    exact h
  unfold toDouble
  rw [hq, roundHalfEven_intCast]
  exact h.symm

/-- A number `m * 2^j` of magnitude below `2^(j+53)` is a binary64 number. -/
theorem toDouble_scaled (m j : ℤ) (hj : -52 ≤ j) {q : ℚ} (hq : q = m * (2 : ℚ) ^ j)
    (h : |q| < (2 : ℚ) ^ (j + 52 + 1)) : toDouble q = q := by
  have hb : max (binExp q) (-1022) ≤ j + 52 :=
    max_le (binExp_le (by omega) h) (by omega)
  obtain ⟨k, hk⟩ : ∃ k : ℕ, (k : ℤ) = j + 52 - max (binExp q) (-1022) :=
    ⟨(j + 52 - max (binExp q) (-1022)).toNat, by omega⟩
  apply toDouble_exact (n := m * 2 ^ k)
  have hu : ulp q = (2 : ℚ) ^ (j - (k : ℤ)) := by
    unfold ulp
    congr 1
    omega
  rw [hu, zpow_sub₀ (by norm_num), zpow_natCast]
  push_cast
  rw [hq]
  field_simp
  ring

/-! ## Snapping to the grid -/

/-- The snapped value is within half a grid step of the raw value, for every
rational raw value. -/
theorem snap_near (v : ℚ) : |snap v - v| ≤ 10 := by
  have h1 : ((⌊v / 20 + 1 / 2⌋ : ℤ) : ℚ) ≤ v / 20 + 1 / 2 := Int.floor_le _
  have h2 : v / 20 + 1 / 2 < ((⌊v / 20 + 1 / 2⌋ : ℤ) : ℚ) + 1 := Int.lt_floor_add_one _
  simp only [snap, mathRound, GRID]
  rw [abs_le]
  constructor <;> linarith

/-- On an integer raw value the snapped value is an integer multiple of 20 at
distance at most 10. -/
theorem snap_int (v : ℤ) :
    ∃ p : ℤ, snap v = p ∧ p % 20 = 0 ∧ |p - v| ≤ 10 := by
  refine ⟨mathRound ((v : ℚ) / GRID) * 20, ?_, Int.mul_emod_left _ _, ?_⟩
  · simp [snap, GRID]
  · have h := snap_near v
    have hc : snap (v : ℚ) = ((mathRound ((v : ℚ) / GRID) * 20 : ℤ) : ℚ) := by
      simp [snap, GRID]
    rw [hc] at h
    exact_mod_cast h

/-- For an integer of magnitude at most `2^52`, line 36 evaluated in binary64
gives the exact-arithmetic value. -/
theorem snapDouble_eq_snap (v : ℤ) (hv : |v| ≤ 2 ^ 52) : snapDouble v = snap v := by
  have hvq : |(v : ℚ)| ≤ 2 ^ 52 := by exact_mod_cast hv
  obtain ⟨hv1, hv2⟩ := abs_le.1 hvq
  set q : ℚ := (v : ℚ) / 20 with hqdef
  set k : ℤ := ⌊q + 1 / 2⌋ with hkdef
  have hk1 : (k : ℚ) ≤ q + 1 / 2 := Int.floor_le _
  have hk2 : q + 1 / 2 < (k : ℚ) + 1 := Int.lt_floor_add_one _
  have hi1 : 20 * k ≤ v + 10 := by
    have : ((20 * k : ℤ) : ℚ) ≤ ((v + 10 : ℤ) : ℚ) := by push_cast; linarith
    exact_mod_cast this
  have hi2 : v + 10 < 20 * k + 20 := by
    have : ((v + 10 : ℤ) : ℚ) < ((20 * k + 20 : ℤ) : ℚ) := by push_cast; linarith
    exact_mod_cast this
  have hqabs : |q| < (2 : ℚ) ^ ((47 : ℤ) + 1) := by
    rw [abs_lt]
    constructor <;> norm_num <;> linarith
  have hulp : ulp q ≤ 1 / 32 := by
    have := ulp_le (by norm_num) hqabs
    norm_num at this
    linarith
  have hnear := abs_le.1 (toDouble_near q)
  have hround : mathRound (toDouble q) = k := by
    unfold mathRound
    rw [Int.floor_eq_iff]
    constructor
    · rcases eq_or_lt_of_le hi1 with heq | hlt
      · have hc : ((20 * k : ℤ) : ℚ) = ((v + 10 : ℤ) : ℚ) := by exact_mod_cast heq
        push_cast at hc
        have hq2 : q = ((2 * k - 1 : ℤ) : ℚ) * (2 : ℚ) ^ (-1 : ℤ) := by
          push_cast
          norm_num
          linarith
        have hq52 : |q| < (2 : ℚ) ^ ((-1 : ℤ) + 52 + 1) := by
          rw [abs_lt]
          constructor <;> norm_num <;> linarith
        rw [toDouble_scaled (2 * k - 1) (-1) (by norm_num) hq2 hq52]
        linarith
      · have : ((20 * k + 1 : ℤ) : ℚ) ≤ ((v + 10 : ℤ) : ℚ) := by exact_mod_cast hlt
        push_cast at this
        linarith [hnear.1]
    · have : ((v + 10 : ℤ) : ℚ) ≤ ((20 * k + 19 : ℤ) : ℚ) := by
        exact_mod_cast (by omega : v + 10 ≤ 20 * k + 19)
      push_cast at this
      linarith [hnear.2]
  have hres : toDouble ((k : ℚ) * 20) = (k : ℚ) * 20 := by
    apply toDouble_scaled (k * 20) 0 (by norm_num)
    · push_cast; ring
    · rw [abs_lt]
      constructor <;> norm_num <;> linarith
  simp only [snapDouble, snap, GRID]
  rw [← hqdef, hround, hres]
  rfl

/-- On every tie of magnitude below `2^54`, which covers every tie that is a
binary64 number, line 36 evaluated in binary64 gives `v + 10`. -/
theorem snapDouble_tie (v : ℤ) (h : v % 20 = 10) (hv : |v| < 2 ^ 54) :
    snapDouble v = v + 10 := by
  have hvq : |(v : ℚ)| < 2 ^ 54 := by exact_mod_cast hv
  obtain ⟨hv1, hv2⟩ := abs_lt.1 hvq
  have hvk : v = 20 * (v / 20) + 10 := by
    have := Int.ediv_add_emod v 20
    omega
  have hc : (v : ℚ) = 20 * ((v / 20 : ℤ) : ℚ) + 10 := by exact_mod_cast hvk
  have hq : (v : ℚ) / 20 = ((2 * (v / 20) + 1 : ℤ) : ℚ) * (2 : ℚ) ^ (-1 : ℤ) := by
    push_cast
    norm_num
    linarith
  have hqabs : |(v : ℚ) / 20| < (2 : ℚ) ^ ((-1 : ℤ) + 52 + 1) := by
    rw [abs_lt]
    constructor <;> norm_num <;> linarith
  have hd : toDouble ((v : ℚ) / 20) = (v : ℚ) / 20 :=
    toDouble_scaled (2 * (v / 20) + 1) (-1) (by norm_num) hq hqabs
  have hround : mathRound ((v : ℚ) / 20) = v / 20 + 1 := by
    unfold mathRound
    have : (v : ℚ) / 20 + 1 / 2 = ((v / 20 + 1 : ℤ) : ℚ) := by
      push_cast
      linarith
    rw [this, Int.floor_intCast]
  have hres : toDouble (((v / 20 + 1 : ℤ) : ℚ) * 20) = ((v / 20 + 1 : ℤ) : ℚ) * 20 := by
    apply toDouble_scaled (5 * (v / 20 + 1)) 2 (by norm_num)
    · push_cast; norm_num; ring
    · rw [abs_lt]
      push_cast
      constructor <;> norm_num <;> linarith
  simp only [snapDouble, GRID]
  rw [hd, hround, hres]
  push_cast
  linarith

/-- C2, refuted as stated: `2^60` and `22518028386749428` are integers and
binary64 numbers; line 36 maps `2^60` to `2^60`, which is no multiple of 20
(remainder 16), and maps `22518028386749428` to `22518028386749440`, which is
12 away; dragging `and1` of the initial circuit to that raw point leaves it
there. -/
theorem onDragMove_grid_fails_on_large :
    (toDouble (2 ^ 60) = 2 ^ 60 ∧ snapDouble (2 ^ 60) = 2 ^ 60 ∧ (2 ^ 60 : ℤ) % 20 = 16) ∧
      (toDouble 22518028386749428 = 22518028386749428 ∧
        snapDouble 22518028386749428 = 22518028386749440 ∧
        ¬ |(22518028386749440 : ℤ) - 22518028386749428| ≤ 10) ∧
      (onDragMove initial "and1" (2 ^ 60) 22518028386749428).nodes
        = [⟨"in1", "INPUT", 40, 40⟩, ⟨"in2", "INPUT", 40, 120⟩,
           ⟨"and1", "AND", 2 ^ 60, 22518028386749440⟩, ⟨"out1", "OUTPUT", 460, 80⟩] := by
  have e1 : binExp (2 ^ 60 : ℚ) = 60 :=
    binExp_eq (by norm_num [abs_of_pos]) (by norm_num [abs_of_pos])
  have e2 : binExp (2 ^ 60 / 20 : ℚ) = 55 :=
    binExp_eq (by norm_num [abs_of_pos]) (by norm_num [abs_of_pos])
  have e3 : binExp (1152921504606847040 : ℚ) = 60 :=
    binExp_eq (by norm_num [abs_of_pos]) (by norm_num [abs_of_pos])
  have d1 : toDouble (2 ^ 60 : ℚ) = 2 ^ 60 := by
    simp only [toDouble, ulp, e1]
    norm_num [roundHalfEven]
  have d2 : toDouble (2 ^ 60 / 20 : ℚ) = 57646075230342352 := by
    simp only [toDouble, ulp, e2]
    norm_num [roundHalfEven]
  have d3 : toDouble (1152921504606847040 : ℚ) = 2 ^ 60 := by
    simp only [toDouble, ulp, e3]
    norm_num [roundHalfEven]
  have r1 : mathRound (57646075230342352 : ℚ) = 57646075230342352 := by
    norm_num [mathRound]
  have s1 : snapDouble (2 ^ 60) = 2 ^ 60 := by
    simp only [snapDouble, GRID, d2, r1]
    norm_num
    exact d3
  have f1 : binExp (22518028386749428 : ℚ) = 54 :=
    binExp_eq (by norm_num [abs_of_pos]) (by norm_num [abs_of_pos])
  have f2 : binExp (22518028386749428 / 20 : ℚ) = 50 :=
    binExp_eq (by norm_num [abs_of_pos]) (by norm_num [abs_of_pos])
  have f3 : binExp (22518028386749440 : ℚ) = 54 :=
    binExp_eq (by norm_num [abs_of_pos]) (by norm_num [abs_of_pos])
  have g1 : toDouble (22518028386749428 : ℚ) = 22518028386749428 := by
    simp only [toDouble, ulp, f1]
    norm_num [roundHalfEven]
  have g2 : toDouble (22518028386749428 / 20 : ℚ) = 2251802838674943 / 2 := by
    simp only [toDouble, ulp, f2]
    norm_num [roundHalfEven]
  have g3 : toDouble (22518028386749440 : ℚ) = 22518028386749440 := by
    simp only [toDouble, ulp, f3]
    norm_num [roundHalfEven]
  have r2 : mathRound (2251802838674943 / 2 : ℚ) = 1125901419337472 := by
    norm_num [mathRound]
  have s2 : snapDouble 22518028386749428 = 22518028386749440 := by
    simp only [snapDouble, GRID, g2, r2]
    norm_num
    exact g3
  refine ⟨⟨d1, s1, by decide⟩, ⟨g1, s2, by decide⟩, ?_⟩
  simp [onDragMove, initial, s1, s2]

/-- C2, amended (grid invariant of `moveNode`): when some node has id `id` and
the raw coordinates are integers of magnitude at most `2^52`, after
`onDragMove` a node with that id is still there and every node with that id
sits at integer coordinates that are multiples of 20 and at most 10 away from
the raw ones; a raw 47 snaps to 40. -/
theorem onDragMove_grid (st : State) (id : String) (rawX rawY : ℤ)
    (h : ∃ n ∈ st.nodes, n.id = id) (hx : |rawX| ≤ 2 ^ 52) (hy : |rawY| ≤ 2 ^ 52) :
    (∃ n ∈ (onDragMove st id rawX rawY).nodes, n.id = id) ∧
      (∀ n ∈ (onDragMove st id rawX rawY).nodes, n.id = id →
        ∃ px py : ℤ, n.x = px ∧ n.y = py ∧ px % 20 = 0 ∧ py % 20 = 0 ∧
          |px - rawX| ≤ 10 ∧ |py - rawY| ≤ 10) ∧
      snapDouble 47 = 40 := by
  refine ⟨?_, ?_, ?_⟩
  · obtain ⟨n, hn, hid⟩ := h
    refine ⟨{ n with x := snapDouble rawX, y := snapDouble rawY }, ?_, hid⟩
    simp only [onDragMove, List.mem_map]
    exact ⟨n, hn, by simp [hid]⟩
  · intro n hn hid
    simp only [onDragMove, List.mem_map] at hn
    obtain ⟨m, _, hm⟩ := hn
    by_cases hmid : m.id = id
    · rw [if_pos hmid] at hm
      obtain ⟨px, hpx, hx0, hxd⟩ := snap_int rawX
      obtain ⟨py, hpy, hy0, hyd⟩ := snap_int rawY
      refine ⟨px, py, ?_, ?_, hx0, hy0, hxd, hyd⟩
      · rw [← hm, ← hpx]; exact snapDouble_eq_snap rawX hx
      · rw [← hm, ← hpy]; exact snapDouble_eq_snap rawY hy
    · rw [if_neg hmid] at hm
      exact absurd (hm ▸ hid) hmid
  · have h47 := snapDouble_eq_snap 47 (by norm_num)
    have hs : snap ((47 : ℤ) : ℚ) = 40 := by norm_num [snap, mathRound, GRID]
    rw [hs] at h47
    exact_mod_cast h47

/-- C2 amended, at the initial circuit: `and1` dragged to the raw point
`(47, -13)`. -/
theorem onDragMove_grid_witness :
    (∃ n ∈ initial.nodes, n.id = "and1") ∧ |(47 : ℤ)| ≤ 2 ^ 52 ∧ |(-13 : ℤ)| ≤ 2 ^ 52 ∧
      ∃ n ∈ (onDragMove initial "and1" (47 : ℤ) (-13 : ℤ)).nodes, n.id = "and1" :=
  ⟨by decide, by norm_num, by norm_num,
    (onDragMove_grid initial "and1" 47 (-13) (by decide) (by norm_num) (by norm_num)).1⟩

/-- C9, refuted as stated: 10 and -10 are both ties; at 10 the code gives 20
where round-half-to-even gives 0, and at -10 the code gives 0 where
round-half-away-from-zero gives -20, so neither convention is followed on all
ties. -/
theorem snap_tie_neither_convention :
    ((10 : ℤ) % 20 = 10 ∧ snap (10 : ℤ) = 20 ∧ snapHalfEven (10 : ℤ) = 0) ∧
      ((-10 : ℤ) % 20 = 10 ∧ snap (-10 : ℤ) = 0 ∧ snapHalfAway (-10 : ℤ) = -20) ∧
      ¬ ((∀ v : ℤ, v % 20 = 10 → snap v = snapHalfEven v) ∨
          (∀ v : ℤ, v % 20 = 10 → snap v = snapHalfAway v)) := by
  have a1 : snap (10 : ℤ) = 20 := by norm_num [snap, mathRound, GRID]
  have a2 : snapHalfEven (10 : ℤ) = 0 := by
    norm_num [snapHalfEven, roundHalfEven, GRID]
  have b1 : snap (-10 : ℤ) = 0 := by norm_num [snap, mathRound, GRID]
  have b2 : snapHalfAway (-10 : ℤ) = -20 := by
    have hc : ⌈(-1 : ℚ)⌉ = -1 := by
      rw [Int.ceil_eq_iff]
      norm_num
    norm_num [snapHalfAway, roundHalfAway, GRID, hc]
  refine ⟨⟨by decide, a1, a2⟩, ⟨by decide, b1, b2⟩, ?_⟩
  rintro (h | h)
  · have := h 10 (by decide)
    rw [a1, a2] at this
    norm_num at this
  · have := h (-10) (by decide)
    rw [b1, b2] at this
    norm_num at this

/-- C9, amended (tie convention): ties go up, towards `+∞`: for every integer
`v` halfway between two multiples of 20 the snap is `v + 10`; for `v ≥ 0` this
is the round-half-away-from-zero result, for `v < 0` that convention would
give `v - 10` instead. -/
theorem snap_tie_up (v : ℤ) (h : v % 20 = 10) :
    snap v = v + 10 ∧ (0 ≤ v → snap v = snapHalfAway v) ∧
      (v < 0 → snapHalfAway v = v - 10) := by
  have hv : v = 20 * (v / 20) + 10 := by
    have := Int.ediv_add_emod v 20
    omega
  have hq : (v : ℚ) / 20 = ((v / 20 : ℤ) : ℚ) + 1 / 2 := by
    have hc : (v : ℚ) = 20 * ((v / 20 : ℤ) : ℚ) + 10 := by exact_mod_cast hv
    rw [hc]
    ring
  refine ⟨?_, ?_, ?_⟩
  · have hfl : ⌊(v : ℚ) / 20 + 1 / 2⌋ = v / 20 + 1 := by
      rw [hq]
      have : ((v / 20 : ℤ) : ℚ) + 1 / 2 + 1 / 2 = ((v / 20 + 1 : ℤ) : ℚ) := by
        push_cast; ring
      rw [this, Int.floor_intCast]
    simp only [snap, mathRound, GRID, hfl]
    have hc : (v : ℚ) = 20 * ((v / 20 : ℤ) : ℚ) + 10 := by exact_mod_cast hv
    push_cast
    linarith
  · intro h0
    have hq0 : (0 : ℚ) ≤ (v : ℚ) / GRID := by
      have : (0 : ℚ) ≤ (v : ℚ) := by exact_mod_cast h0
      simp only [GRID]
      positivity
    simp [snap, snapHalfAway, roundHalfAway, mathRound, hq0]
  · intro hneg
    have hq0 : ¬ (0 : ℚ) ≤ (v : ℚ) / GRID := by
      have : (v : ℚ) < 0 := by exact_mod_cast hneg
      simp only [GRID, not_le]
      linarith
    have hcl : ⌈(v : ℚ) / 20 - 1 / 2⌉ = v / 20 := by
      rw [hq]
      have : ((v / 20 : ℤ) : ℚ) + 1 / 2 - 1 / 2 = ((v / 20 : ℤ) : ℚ) := by ring
      rw [this, Int.ceil_intCast]
    have hc : (v : ℚ) = 20 * ((v / 20 : ℤ) : ℚ) + 10 := by exact_mod_cast hv
    simp only [snapHalfAway, roundHalfAway, if_neg hq0]
    simp only [GRID, hcl]
    linarith

/-- C9 amended, at the ties 30 and -30. -/
theorem snap_tie_up_witness :
    (30 : ℤ) % 20 = 10 ∧ snap (30 : ℤ) = (30 : ℤ) + 10 ∧
      (-30 : ℤ) % 20 = 10 ∧ snap (-30 : ℤ) = (-30 : ℤ) + 10 :=
  ⟨by decide, (snap_tie_up 30 (by decide)).1, by decide, (snap_tie_up (-30) (by decide)).1⟩

/-! ## Adding gates -/

/-- The node list after a sequence of `addGate` calls: the new nodes are
appended in call order, each at `(120, 120)`. -/
theorem addGates_nodes (st : State) (calls : List (String × String)) :
    (addGates st calls).nodes
      = st.nodes ++ calls.map fun c => { id := newId c, type := c.1, x := 120, y := 120 } := by
  induction calls generalizing st with
  | nil => simp [addGates]
  | cons c cs ih =>
    have hstep : addGates st (c :: cs) = addGates (addGate st c.1 c.2) cs := rfl
    rw [hstep, ih]
    simp [addGate, newId]

/-- C3, refuted as stated: the ids of the initial circuit are pairwise
distinct, and two `addGate('AND')` calls in which the random expression yields
`i` both times (`Math.random()` returning `0.5`) leave two nodes with the id
`and_i`. -/
theorem addGate_id_collision :
    (initial.nodes.map fun n => n.id).Nodup ∧
      ((addGates initial [("AND", "i"), ("AND", "i")]).nodes.map fun n => n.id)
        = ["in1", "in2", "and1", "out1", "and_i", "and_i"] ∧
      ¬ ((addGates initial [("AND", "i"), ("AND", "i")]).nodes.map fun n => n.id).Nodup := by
  decide

/-- C3, amended (uniqueness of ids): starting from pairwise distinct ids, a
sequence of `addGate` calls appends the built ids `lowercase(type) + "_" +
suffix` in call order, and the resulting ids are pairwise distinct exactly
when the built ids are pairwise distinct and none of them is already the id of
a starting node. -/
theorem addGates_ids_nodup_iff (st : State) (calls : List (String × String))
    (h : (st.nodes.map fun n => n.id).Nodup) :
    ((addGates st calls).nodes.map fun n => n.id)
        = (st.nodes.map fun n => n.id) ++ calls.map newId ∧
      (((addGates st calls).nodes.map fun n => n.id).Nodup ↔
        (calls.map newId).Nodup ∧
          ∀ c ∈ calls, newId c ∉ st.nodes.map fun n => n.id) := by
  have hids : ((addGates st calls).nodes.map fun n => n.id)
      = (st.nodes.map fun n => n.id) ++ calls.map newId := by
    rw [addGates_nodes]
    simp [List.map_append, Function.comp_def]
  refine ⟨hids, ?_⟩
  rw [hids, List.nodup_append]
  constructor
  · rintro ⟨_, h2, h3⟩
    refine ⟨h2, fun c hc hmem => h3 hmem ?_⟩
    exact List.mem_map_of_mem newId hc
  · rintro ⟨h2, h3⟩
    refine ⟨h, h2, fun a ha hb => ?_⟩
    obtain ⟨c, hc, rfl⟩ := List.mem_map.1 hb
    exact h3 c hc ha

/-- C3 amended, at the initial circuit with two different suffixes. -/
theorem addGates_ids_nodup_iff_witness :
    (initial.nodes.map fun n => n.id).Nodup ∧
      ((addGates initial [("AND", "i"), ("AND", "k")]).nodes.map fun n => n.id).Nodup :=
  ⟨by decide,
    ((addGates_ids_nodup_iff initial [("AND", "i"), ("AND", "k")] (by decide)).2).2
      (by decide)⟩

/-! ## Routing an edge -/

/-- The first node with a given id is what `find` returns. -/
theorem find_of_firstWithId {nodes : List Node} {id : String} {f : Node}
    (h : FirstWithId nodes id f) :
    (nodes.find? fun n => n.id == id) = some f := by
  obtain ⟨pre, post, rfl, hid, hpre⟩ := h
  induction pre with
  | nil => simp [hid]
  | cons a pre ih =>
    have ha : a.id ≠ id := hpre a (List.mem_cons_self _ _)
    have hrest : ∀ n ∈ pre, n.id ≠ id := fun n hn => hpre n (List.mem_cons_of_mem _ hn)
    simp only [List.cons_append, List.find?_cons]
    have hb : (a.id == id) = false := by simpa using ha
    rw [hb]
    exact ih hrest

/-- A list holding a node with the id has a first such node. -/
theorem exists_firstWithId {nodes : List Node} {id : String}
    (h : ∃ n ∈ nodes, n.id = id) : ∃ f, FirstWithId nodes id f := by
  induction nodes with
  | nil => simp at h
  | cons a l ih =>
    by_cases ha : a.id = id
    · exact ⟨a, [], l, rfl, ha, by simp⟩
    · have h' : ∃ n ∈ l, n.id = id := by
        obtain ⟨n, hn, hid⟩ := h
        rcases List.mem_cons.1 hn with rfl | hn'
        · exact absurd hid ha
        · exact ⟨n, hn', hid⟩
      obtain ⟨f, pre, post, hl, hid, hpre⟩ := ih h'
      refine ⟨f, a :: pre, post, by simp [hl], hid, ?_⟩
      intro n hn
      rcases List.mem_cons.1 hn with rfl | hn'
      · exact ha
      · exact hpre n hn'

/-- `find` returns nothing exactly when no node has the id. -/
theorem find_id_eq_none (nodes : List Node) (id : String) :
    (nodes.find? fun n => n.id == id) = none ↔ ∀ n ∈ nodes, n.id ≠ id := by
  simp [List.find?_eq_none]

/-- C8 (`routeEdge` geometry): the edge callback returns `null` exactly when
`from` or `to` is the id of no node; when `f` and `t` are the first nodes with
those ids (they exist as soon as both ids occur) it returns the flat point
array of the path from the right-centre `(f.x + GATE_W, f.y + GATE_H/2)` of
`f` through the horizontal midpoint, taken at both heights, to the left-centre
`(t.x, t.y + GATE_H/2)` of `t`, with `GATE_W = 100` and `GATE_H/2 = 25`; only
the four coordinates of `f` and `t` enter the result. -/
theorem routeEdge_geometry (nodes : List Node) (e : Edge) :
    (routeEdge nodes e = none ↔
        (∀ n ∈ nodes, n.id ≠ e.«from») ∨ (∀ n ∈ nodes, n.id ≠ e.«to»)) ∧
      ((∃ n ∈ nodes, n.id = e.«from») → (∃ n ∈ nodes, n.id = e.«to») →
        ∃ f t, FirstWithId nodes e.«from» f ∧ FirstWithId nodes e.«to» t) ∧
      (∀ f t, FirstWithId nodes e.«from» f → FirstWithId nodes e.«to» t →
        routeEdge nodes e
          = some [f.x + GATE_W, f.y + GATE_H / 2,
                  (f.x + GATE_W + t.x) / 2, f.y + GATE_H / 2,
                  (f.x + GATE_W + t.x) / 2, t.y + GATE_H / 2,
                  t.x, t.y + GATE_H / 2]) ∧
      (∀ nodes' e' f t f' t', FirstWithId nodes e.«from» f → FirstWithId nodes e.«to» t →
        FirstWithId nodes' e'.«from» f' → FirstWithId nodes' e'.«to» t' →
        f.x = f'.x → f.y = f'.y → t.x = t'.x → t.y = t'.y →
        routeEdge nodes e = routeEdge nodes' e') ∧
      GATE_W = 100 ∧ GATE_H / 2 = 25 := by
  have hsome : ∀ (ns : List Node) (d : Edge) (f t : Node),
      FirstWithId ns d.«from» f → FirstWithId ns d.«to» t →
      routeEdge ns d
        = some [f.x + 100, f.y + 25, (f.x + 100 + t.x) / 2, f.y + 25,
                (f.x + 100 + t.x) / 2, t.y + 25, t.x, t.y + 25] := by
    intro ns d f t hf ht
    simp only [routeEdge, find_of_firstWithId hf, find_of_firstWithId ht]
  have hW : GATE_W = 100 := rfl
  have hH : GATE_H / 2 = 25 := by norm_num [GATE_H]
  refine ⟨?_, ?_, ?_, ?_, hW, hH⟩
  · rw [← find_id_eq_none, ← find_id_eq_none]
    simp only [routeEdge]
    cases (nodes.find? fun n => n.id == e.«from») <;>
      cases (nodes.find? fun n => n.id == e.«to») <;> simp
  · intro h1 h2
    obtain ⟨f, hf⟩ := exists_firstWithId h1
    obtain ⟨t, ht⟩ := exists_firstWithId h2
    exact ⟨f, t, hf, ht⟩
  · intro f t hf ht
    rw [hsome nodes e f t hf ht, hW, hH]
  · intro nodes' e' f t f' t' hf ht hf' ht' hx hy hx' hy'
    rw [hsome nodes e f t hf ht, hsome nodes' e' f' t' hf' ht', hx, hy, hx', hy']

/-- C8, at the initial circuit: the edge `in1 → and1` is routed through
`(140, 65)`, `(200, 65)`, `(200, 105)`, `(260, 105)`. -/
theorem routeEdge_geometry_witness :
    FirstWithId initial.nodes "in1" ⟨"in1", "INPUT", 40, 40⟩ ∧
      FirstWithId initial.nodes "and1" ⟨"and1", "AND", 260, 80⟩ ∧
      routeEdge initial.nodes ⟨"in1", "and1"⟩
        = some [40 + GATE_W, 40 + GATE_H / 2, (40 + GATE_W + 260) / 2, 40 + GATE_H / 2,
                (40 + GATE_W + 260) / 2, 80 + GATE_H / 2, 260, 80 + GATE_H / 2] :=
  have hf : FirstWithId initial.nodes "in1" ⟨"in1", "INPUT", 40, 40⟩ :=
    ⟨[], [⟨"in2", "INPUT", 40, 120⟩, ⟨"and1", "AND", 260, 80⟩, ⟨"out1", "OUTPUT", 460, 80⟩],
      rfl, rfl, by simp⟩
  have ht : FirstWithId initial.nodes "and1" ⟨"and1", "AND", 260, 80⟩ :=
    ⟨[⟨"in1", "INPUT", 40, 40⟩, ⟨"in2", "INPUT", 40, 120⟩], [⟨"out1", "OUTPUT", 460, 80⟩],
      rfl, rfl, by decide⟩
  ⟨hf, ht, (routeEdge_geometry initial.nodes ⟨"in1", "and1"⟩).2.2.1 _ _ hf ht⟩

end App
